import Mathlib

/-!
Verification development for the txtify web-content extractor
(`streamlit.py`, `streamlitV2.py`, `streamlitV3.py`).

Strings are modelled as `List Char`.  Python's regex character classes
`\s` and `\w` are modelled over their ASCII fragments (the repository's
inputs of interest are ASCII); CPython's `re` operates on Unicode but
agrees with this model on every ASCII string.  Library calls that leave
the process (HTTP fetch, HTML parsing via BeautifulSoup, the Gemini
endpoint, `urllib.parse`) are modelled as explicit outcome parameters or
abstract function parameters, so every theorem quantifies over their
behaviour.
-/

namespace Txtify

/-- ASCII fragment of Python's `\s` / `str.strip()` whitespace class. -/
def pySpace (c : Char) : Bool :=
  c = ' ' || c = '\t' || c = '\n' || c = '\x0d' || c = '\x0b' || c = '\x0c'

/-- ASCII fragment of Python's `\w` (word character) class. -/
def pyWord (c : Char) : Bool :=
  c.isAlphanum || c = '_'

/-- Characters kept by `re.sub(r'[^\w\s.,!?-]', '', text)` in `clean_text`. -/
def allowedChar (c : Char) : Bool :=
  pyWord c || pySpace c || c = '.' || c = ',' || c = '!' || c = '?' || c = '-'

/-- `re.sub(r'\s+', ' ', text)`: every maximal run of whitespace becomes a
single space. -/
def collapseWS : List Char → List Char
  | [] => []
  | [c] => if pySpace c then [' '] else [c]
  | c :: d :: cs =>
    if pySpace c && pySpace d then collapseWS (d :: cs)
    else (if pySpace c then ' ' else c) :: collapseWS (d :: cs)

/-- Drop the longest prefix of characters satisfying `p`
(left half of Python `str.strip`). -/
def trimL (p : Char → Bool) : List Char → List Char
  | [] => []
  | c :: cs => if p c then trimL p cs else c :: cs

/-- Drop the longest suffix of characters satisfying `p`
(right half of Python `str.strip`). -/
def trimR (p : Char → Bool) : List Char → List Char
  | [] => []
  | c :: cs =>
    match trimR p cs with
    | [] => if p c then [] else [c]
    | d :: ds => c :: d :: ds

/-- Python `str.strip(chars)`: trim both ends. -/
def stripBy (p : Char → Bool) (l : List Char) : List Char :=
  trimR p (trimL p l)

/-- Python `str.strip()` (whitespace). -/
def pyStrip (l : List Char) : List Char :=
  stripBy pySpace l

/-- Python `str.split('\n')`. -/
def splitOnNL : List Char → List (List Char)
  | [] => [[]]
  | c :: cs =>
    if c = '\n' then [] :: splitOnNL cs
    else
      match splitOnNL cs with
      | [] => [[c]]
      | a :: r => (c :: a) :: r

/-- Python `'\n'.join(...)`. -/
def joinNL : List (List Char) → List Char
  | [] => []
  | [l] => l
  | l :: l' :: ls => l ++ '\n' :: joinNL (l' :: ls)

/-- `clean_text` from `streamlit.py` (identical in `streamlitV2.py` and
`streamlitV3.py`): collapse whitespace runs, delete characters outside
`[\w\s.,!?-]`, rebuild from non-blank stripped lines, strip. -/
def clean_text (l : List Char) : List Char :=
  let t1 := collapseWS l
  let t2 := t1.filter allowedChar
  let t3 := joinNL (((splitOnNL t2).map pyStrip).filter (fun x => !x.isEmpty))
  pyStrip t3

/-- `MIN_CONTENT_LENGTH` from all three variants. -/
def MIN_CONTENT_LENGTH : Nat := 50

/-! ### Lemmas about the `clean_text` pipeline -/

/-- Every character produced by `collapseWS` is either a space or a
non-whitespace character of the input. -/
theorem mem_collapseWS : ∀ (l : List Char) (x : Char), x ∈ collapseWS l →
    x = ' ' ∨ (x ∈ l ∧ pySpace x = false)
  | [], x, h => absurd h (by simp [collapseWS])
  | [c], x, h => by
    by_cases hc : pySpace c
    · simp [collapseWS, hc] at h
      exact Or.inl h
    · simp [collapseWS, hc] at h
      subst h
      exact Or.inr ⟨List.mem_singleton.mpr rfl, by simpa using hc⟩
  | c :: d :: cs, x, h => by
    by_cases h1 : pySpace c
    · by_cases h2 : pySpace d
      · rw [collapseWS, if_pos (by simp [h1, h2])] at h
        rcases mem_collapseWS (d :: cs) x h with h' | h'
        · exact Or.inl h'
        · exact Or.inr ⟨List.mem_cons_of_mem _ h'.1, h'.2⟩
      · rw [collapseWS, if_neg (by simp [h2])] at h
        rw [if_pos h1] at h
        rcases List.mem_cons.mp h with h' | h'
        · exact Or.inl h'
        · rcases mem_collapseWS (d :: cs) x h' with h'' | h''
          · exact Or.inl h''
          · exact Or.inr ⟨List.mem_cons_of_mem _ h''.1, h''.2⟩
    · rw [collapseWS, if_neg (by simp [h1]), if_neg h1] at h
      rcases List.mem_cons.mp h with h' | h'
      · subst h'
        exact Or.inr ⟨List.mem_cons_self _ _, by simpa using h1⟩
      · rcases mem_collapseWS (d :: cs) x h' with h'' | h''
        · exact Or.inl h''
        · exact Or.inr ⟨List.mem_cons_of_mem _ h''.1, h''.2⟩

/-- `collapseWS` keeps a non-whitespace head in place. -/
theorem collapseWS_cons_of_not_space {d : Char} (hd : pySpace d = false)
    (cs : List Char) : collapseWS (d :: cs) = d :: collapseWS cs := by
  cases cs with
  | nil => simp [collapseWS, hd]
  | cons e cs' => rw [collapseWS, if_neg (by simp [hd]), if_neg (by simp [hd])]

/-- No two adjacent whitespace characters. -/
def noAdjWS : List Char → Bool
  | [] => true
  | [_] => true
  | c :: d :: cs => !(pySpace c && pySpace d) && noAdjWS (d :: cs)

theorem noAdjWS_tail {c : Char} {cs : List Char} (h : noAdjWS (c :: cs) = true) :
    noAdjWS cs = true := by
  cases cs with
  | nil => rfl
  | cons d ds =>
    rw [noAdjWS, Bool.and_eq_true] at h
    exact h.2

/-- The output of `collapseWS` never has two adjacent whitespace characters. -/
theorem noAdjWS_collapseWS : ∀ l : List Char, noAdjWS (collapseWS l) = true
  | [] => by simp [collapseWS, noAdjWS]
  | [c] => by by_cases hc : pySpace c <;> simp [collapseWS, hc, noAdjWS]
  | c :: d :: cs => by
    by_cases h1 : pySpace c
    · by_cases h2 : pySpace d
      · rw [collapseWS, if_pos (by simp [h1, h2])]
        exact noAdjWS_collapseWS (d :: cs)
      · rw [collapseWS, if_neg (by simp [h2]), if_pos h1,
          collapseWS_cons_of_not_space (by simpa using h2)]
        rw [noAdjWS, Bool.and_eq_true]
        refine ⟨by simp [h2], ?_⟩
        rw [← collapseWS_cons_of_not_space (by simpa using h2)]
        exact noAdjWS_collapseWS (d :: cs)
    · rw [collapseWS, if_neg (by simp [h1]), if_neg h1]
      have hrec := noAdjWS_collapseWS (d :: cs)
      cases hcol : collapseWS (d :: cs) with
      | nil => rfl
      | cons y ys =>
        rw [noAdjWS, Bool.and_eq_true]
        refine ⟨by simp [h1], ?_⟩
        rw [← hcol]
        exact hrec

theorem mem_trimL {p : Char → Bool} : ∀ {l : List Char} {x : Char},
    x ∈ trimL p l → x ∈ l := by
  intro l
  induction l with
  | nil => intro x h; simp [trimL] at h
  | cons c cs ih =>
    intro x h
    by_cases hc : p c
    · rw [trimL, if_pos hc] at h
      exact List.mem_cons_of_mem _ (ih h)
    · rwa [trimL, if_neg hc] at h

theorem mem_trimR {p : Char → Bool} : ∀ {l : List Char} {x : Char},
    x ∈ trimR p l → x ∈ l := by
  intro l
  induction l with
  | nil => intro x h; simp [trimR] at h
  | cons c cs ih =>
    intro x h
    rw [trimR] at h
    cases htr : trimR p cs with
    | nil =>
      rw [htr] at h
      by_cases hc : p c
      · simp [hc] at h
      · simp [hc] at h
        simp [h]
    | cons d ds =>
      rw [htr] at h
      rcases List.mem_cons.mp h with h' | h'
      · simp [h']
      · exact List.mem_cons_of_mem _ (ih (htr ▸ h'))

theorem mem_pyStrip {l : List Char} {x : Char} (h : x ∈ pyStrip l) : x ∈ l :=
  mem_trimL (mem_trimR h)

/-- The head surviving `trimL` does not satisfy `p`. -/
theorem trimL_head {p : Char → Bool} : ∀ {l : List Char} {c : Char} {cs : List Char},
    trimL p l = c :: cs → p c = false := by
  intro l
  induction l with
  | nil => intro c cs h; simp [trimL] at h
  | cons a as ih =>
    intro c cs h
    by_cases ha : p a
    · rw [trimL, if_pos ha] at h
      exact ih h
    · rw [trimL, if_neg ha] at h
      cases h
      simpa using ha

/-- `trimL` is the identity on a list whose head does not satisfy `p`. -/
theorem trimL_eq_self {p : Char → Bool} : ∀ {l : List Char},
    (∀ c cs, l = c :: cs → p c = false) → trimL p l = l := by
  intro l h
  cases l with
  | nil => rfl
  | cons c cs => rw [trimL, if_neg (by simp [h c cs rfl])]

/-- `trimR` preserves the head of the list. -/
theorem trimR_head {p : Char → Bool} : ∀ {l : List Char} {c : Char} {cs : List Char},
    trimR p l = c :: cs → ∃ ds, l = c :: ds := by
  intro l c cs h
  cases l with
  | nil => simp [trimR] at h
  | cons a as =>
    rw [trimR] at h
    cases htr : trimR p as with
    | nil =>
      rw [htr] at h
      by_cases ha : p a
      · simp [ha] at h
      · simp [ha] at h
        exact ⟨as, by rw [h.1]⟩
    | cons d ds =>
      rw [htr] at h
      cases h
      exact ⟨as, rfl⟩

theorem trimL_idem {p : Char → Bool} (l : List Char) :
    trimL p (trimL p l) = trimL p l := by
  cases htl : trimL p l with
  | nil => rfl
  | cons c cs => rw [trimL, if_neg (by simp [trimL_head htl])]

theorem trimR_idem {p : Char → Bool} : ∀ l : List Char,
    trimR p (trimR p l) = trimR p l := by
  intro l
  induction l with
  | nil => rfl
  | cons c cs ih =>
    rw [trimR]
    cases htr : trimR p cs with
    | nil =>
      by_cases hc : p c
      · simp [hc, trimR]
      · simp [hc, trimR]
    | cons d ds =>
      rw [trimR]
      rw [htr] at ih
      rw [ih]

theorem pyStrip_idem (l : List Char) : pyStrip (pyStrip l) = pyStrip l := by
  unfold pyStrip stripBy
  cases hb : trimR pySpace (trimL pySpace l) with
  | nil => simp [trimL, trimR]
  | cons c cs =>
    have hhead : pySpace c = false := by
      obtain ⟨ds, hds⟩ := trimR_head hb
      exact trimL_head hds
    rw [← hb, trimL_eq_self (by intro x xs hx; rw [hb] at hx; cases hx; exact hhead)]
    exact trimR_idem _

/-- `str.split('\n')` on a newline-free list yields that single line. -/
theorem splitOnNL_eq_single : ∀ {t : List Char}, '\n' ∉ t → splitOnNL t = [t] := by
  intro t
  induction t with
  | nil => intro _; rfl
  | cons c cs ih =>
    intro h
    have hc : ¬(c = '\n') := fun hc => h (hc ▸ List.mem_cons_self _ _)
    have hcs : '\n' ∉ cs := fun hm => h (List.mem_cons_of_mem _ hm)
    rw [splitOnNL, if_neg hc, ih hcs]

theorem joinNL_nil : joinNL [] = [] := rfl

theorem joinNL_single (l : List Char) : joinNL [l] = l := rfl

/-- On newline-free input (which `collapseWS` guarantees), `clean_text`
is just: collapse whitespace, delete disallowed characters, strip. -/
theorem clean_text_eq (l : List Char) :
    clean_text l = pyStrip ((collapseWS l).filter allowedChar) := by
  simp only [clean_text]
  have hnl : '\n' ∉ (collapseWS l).filter allowedChar := by
    intro hm
    rcases mem_collapseWS l '\n' (List.mem_of_mem_filter hm) with h | h
    · exact absurd h (by decide)
    · exact absurd h.2 (by decide)
  rw [splitOnNL_eq_single hnl]
  cases hs : (pyStrip ((collapseWS l).filter allowedChar)).isEmpty
  · have : ¬(pyStrip ((collapseWS l).filter allowedChar)).isEmpty = true := by
      simp [hs]
    simp only [List.map_cons, List.map_nil, List.filter, hs, Bool.not_false]
    rw [joinNL_single]
    exact pyStrip_idem _
  · have hnil : pyStrip ((collapseWS l).filter allowedChar) = [] :=
      List.isEmpty_iff.mp hs
    simp only [List.map_cons, List.map_nil, List.filter, hs, Bool.not_true]
    rw [hnil, joinNL_nil]
    simp [pyStrip, stripBy, trimL, trimR]

/-- `collapseWS` is the identity on lists whose whitespace is single
spaces with no two adjacent. -/
theorem collapseWS_eq_self : ∀ {l : List Char},
    (∀ c ∈ l, pySpace c = true → c = ' ') → noAdjWS l = true → collapseWS l = l
  | [], _, _ => rfl
  | [c], hb, _ => by
    by_cases hc : pySpace c
    · rw [collapseWS, if_pos hc, hb c (List.mem_singleton.mpr rfl) hc]
    · rw [collapseWS, if_neg hc]
  | c :: d :: cs, hb, hadj => by
    rw [noAdjWS, Bool.and_eq_true] at hadj
    have hnot : ¬(pySpace c && pySpace d) = true := by
      have h1 := hadj.1
      rw [Bool.not_eq_true'] at h1
      simp [h1]
    rw [collapseWS, if_neg hnot,
      collapseWS_eq_self (fun x hx hs => hb x (List.mem_cons_of_mem _ hx) hs) hadj.2]
    by_cases hc : pySpace c
    · rw [if_pos hc, hb c (List.mem_cons_self _ _) hc]
    · rw [if_neg hc]

theorem noAdjWS_trimL {p : Char → Bool} : ∀ {l : List Char},
    noAdjWS l = true → noAdjWS (trimL p l) = true := by
  intro l
  induction l with
  | nil => intro h; exact h
  | cons c cs ih =>
    intro h
    by_cases hc : p c
    · rw [trimL, if_pos hc]
      exact ih (noAdjWS_tail h)
    · rwa [trimL, if_neg hc]

theorem noAdjWS_trimR {p : Char → Bool} : ∀ {l : List Char},
    noAdjWS l = true → noAdjWS (trimR p l) = true := by
  intro l
  induction l with
  | nil => intro h; exact h
  | cons c cs ih =>
    intro h
    rw [trimR]
    cases htr : trimR p cs with
    | nil =>
      by_cases hc : p c
      · simp only [hc, if_pos]
        rfl
      · simp only [hc]
        rfl
    | cons d ds =>
      obtain ⟨es, hes⟩ := trimR_head htr
      rw [noAdjWS, Bool.and_eq_true]
      constructor
      · subst hes
        rw [noAdjWS, Bool.and_eq_true] at h
        simpa using h.1
      · rw [← htr]
        exact ih (noAdjWS_tail h)

/-- `clean_text` is the identity on its doubly-cleaned normal forms. -/
theorem clean_text_of_normal {m : List Char}
    (hA : ∀ c ∈ m, allowedChar c = true)
    (hB : ∀ c ∈ m, pySpace c = true → c = ' ')
    (hadj : noAdjWS m = true)
    (hL : trimL pySpace m = m) (hR : trimR pySpace m = m) :
    clean_text m = m := by
  rw [clean_text_eq]
  rw [collapseWS_eq_self hB hadj]
  rw [List.filter_eq_self.mpr hA]
  rw [pyStrip, stripBy, hL, hR]

/-- After one pass of `clean_text`, every character is allowed and every
whitespace character is a plain space. -/
theorem clean_text_chars {l : List Char} {c : Char} (h : c ∈ clean_text l) :
    allowedChar c = true ∧ (pySpace c = true → c = ' ') := by
  rw [clean_text_eq] at h
  have h' := mem_pyStrip h
  rw [List.mem_filter] at h'
  refine ⟨h'.2, ?_⟩
  intro hs
  rcases mem_collapseWS l c h'.1 with h'' | h''
  · exact h''
  · rw [h''.2] at hs
    cases hs

/-- One pass of `clean_text` over an all-allowed input already reaches a
fixed point of `clean_text`. -/
theorem clean_text_idem_of_allowed {m : List Char}
    (hA : ∀ c ∈ m, allowedChar c = true) :
    clean_text (clean_text m) = clean_text m := by
  have hAc : ∀ c ∈ collapseWS m, allowedChar c = true := by
    intro c hc
    rcases mem_collapseWS m c hc with h | h
    · rw [h]; decide
    · exact hA c h.1
  have hfix : clean_text m = pyStrip (collapseWS m) := by
    rw [clean_text_eq, List.filter_eq_self.mpr hAc]
  set m2 := pyStrip (collapseWS m) with hm2
  have hmem : ∀ c ∈ m2, c ∈ collapseWS m := fun c hc => mem_pyStrip hc
  have hA2 : ∀ c ∈ m2, allowedChar c = true := fun c hc => hAc c (hmem c hc)
  have hB2 : ∀ c ∈ m2, pySpace c = true → c = ' ' := by
    intro c hc hs
    rcases mem_collapseWS m c (hmem c hc) with h | h
    · exact h
    · rw [h.2] at hs; cases hs
  have hadj2 : noAdjWS m2 = true :=
    noAdjWS_trimR (noAdjWS_trimL (noAdjWS_collapseWS m))
  have hL2 : trimL pySpace m2 = m2 := by
    apply trimL_eq_self
    intro c cs hc
    obtain ⟨ds, hds⟩ := trimR_head (hm2 ▸ hc)
    exact trimL_head hds
  have hR2 : trimR pySpace m2 = m2 := by
    rw [hm2, pyStrip, stripBy]
    exact trimR_idem _
  rw [hfix]
  exact clean_text_of_normal hA2 hB2 hadj2 hL2 hR2

/-! ### Claims C3, C6, C9 -/

/-- C3, counterexample: `clean_text` is not idempotent.  Deleting the
disallowed `$` from `"a $ b"` leaves the double space `"a  b"`, which a
second pass collapses to `"a b"`. -/
theorem claim_C3_counterexample :
    clean_text (clean_text ("a $ b".toList)) ≠ clean_text ("a $ b".toList) := by
  decide

/-- C3 (amended): `clean_text` reaches a fixed point after two
applications: a third application changes nothing. -/
theorem claim_C3 (l : List Char) :
    clean_text (clean_text (clean_text l)) = clean_text (clean_text l) :=
  clean_text_idem_of_allowed (fun _ hc => (clean_text_chars hc).1)

/-- C6 (confirmed): stripping the documented example input yields exactly
the documented output. -/
theorem claim_C6 :
    clean_text ("Hello,   World!!\n\n\nAds here$$$".toList) =
      "Hello, World!! Ads here".toList := by
  decide

/-- C9 (confirmed): the output of `clean_text` never contains a newline:
the whitespace-collapsing first step leaves a single line. -/
theorem claim_C9 (l : List Char) : '\n' ∉ clean_text l := by
  intro h
  have h' := (clean_text_chars h).2 (by decide)
  cases h'

/-! ### `streamlitV3.py`: agent output cleanup (`initial_clean`)

`extract_content_with_agent` runs
`re.sub(r'^([🔗🖱️🔍📄].*|Extracted the .*|:)\s*$', '', full_text_result,
flags=re.MULTILINE)`.  The character class holds the five code points
U+1F517, U+1F5B1, U+FE0F (the variation selector of 🖱️), U+1F50D and
U+1F4C4.  A match must start at a line start; the alternatives cover the
whole line (for `:` the rest of the line must be whitespace); the greedy
`\s*$` then absorbs any following whitespace-only lines, stopping just
before the last newline of the whitespace run, or at the end of the
string.  Hence the substitution replaces each maximal block
[matching line, following whitespace-only lines] by a single empty line
(by nothing when the block reaches the end of the string, keeping the
preceding newline). -/

/-- Code points of the regex character class `[🔗🖱️🔍📄]`. -/
def noiseEmoji (c : Char) : Bool :=
  c.toNat = 0x1F517 || c.toNat = 0x1F5B1 || c.toNat = 0xFE0F ||
    c.toNat = 0x1F50D || c.toNat = 0x1F4C4

def isAllWS (L : List Char) : Bool := L.all pySpace

/-- Does the anchored group `([🔗🖱️🔍📄].*|Extracted the .*|:)` followed by
`\s*$` match this line? -/
def lineMatchesNoise (L : List Char) : Bool :=
  (match L with
   | c :: _ => noiseEmoji c
   | [] => false) ||
  ("Extracted the ".toList.isPrefixOf L) ||
  (match L with
   | c :: rest => c = ':' && rest.all pySpace
   | [] => false)

/-- The multiline substitution, as a walk over the list of lines.
`absorbing` is true while inside the `\s*` tail of a match. -/
def subNoise (absorbing : Bool) : List (List Char) → List (List Char)
  | [] => if absorbing then [[]] else []
  | L :: rest =>
    if absorbing then
      if isAllWS L then subNoise true rest
      else [] :: (if lineMatchesNoise L then subNoise true rest
                  else L :: subNoise false rest)
    else
      if lineMatchesNoise L then subNoise true rest
      else L :: subNoise false rest

/-- `initial_clean` from `extract_content_with_agent` (`streamlitV3.py`):
the multiline noise-line substitution followed by `.strip()`. -/
def initial_clean (t : List Char) : List Char :=
  pyStrip (joinNL (subNoise false (splitOnNL t)))

/-! ### Page pipelines after the fetch/agent step

The fetch (network + BeautifulSoup selector chain, or the browser agent)
is an external call; the pipelines are modelled from the point where the
extracted text is in hand, with the Gemini cleanup as an abstract
function `genai`.  The `Nat` component instruments how many times
`clean_with_genai` is invoked. -/

def errInsufficient : List Char := "Error: Insufficient content extracted".toList

/-- `extract_content` (`streamlit.py`) after the fetch produced
`main_content`: clean, reject if short, else pass to `clean_with_genai`. -/
def extract_content_core (genai : List Char → List Char)
    (mainContent : List Char) : (Bool × List Char) × Nat :=
  let cleanedText := clean_text mainContent
  if cleanedText.length < MIN_CONTENT_LENGTH then ((false, errInsufficient), 0)
  else ((true, genai cleanedText), 1)

/-- `extract_content_with_agent` (`streamlitV3.py`) after the agent
produced `full_text_result`: its gate uses `initial_clean`, not
`clean_text`. -/
def extract_content_with_agent_core (genai : List Char → List Char)
    (fullTextResult : List Char) : (Bool × List Char) × Nat :=
  let initialClean := initial_clean fullTextResult
  if initialClean.length < MIN_CONTENT_LENGTH then ((false, errInsufficient), 0)
  else ((true, genai initialClean), 1)

/-! ### Claim C1 -/

/-- C1, counterexample: sixty dollar signs strip to the empty string under
`clean_text` (length 0 < 50), yet `extract_content_with_agent` does not
reject them: its gate uses its own `initial_clean`, which leaves them
untouched, so the remote cleanup is invoked. -/
theorem claim_C1_counterexample :
    (clean_text (List.replicate 60 '$')).length < MIN_CONTENT_LENGTH ∧
      extract_content_with_agent_core (fun t => t) (List.replicate 60 '$') =
        ((true, List.replicate 60 '$'), 1) := by
  constructor
  · decide
  · decide

/-- C1 (amended): `extract_content` rejects exactly when its
`clean_text` result is shorter than `MIN_CONTENT_LENGTH`, returning the
insufficient-content error without invoking `clean_with_genai`;
`extract_content_with_agent` does the same but gated on its own
`initial_clean` (noise-line removal plus strip), not on `clean_text`. -/
theorem claim_C1 :
    (∀ (genai : List Char → List Char) (content : List Char),
       (clean_text content).length < MIN_CONTENT_LENGTH →
       extract_content_core genai content = ((false, errInsufficient), 0)) ∧
    (∀ (genai : List Char → List Char) (fullText : List Char),
       (initial_clean fullText).length < MIN_CONTENT_LENGTH →
       extract_content_with_agent_core genai fullText =
         ((false, errInsufficient), 0)) := by
  constructor
  · intro genai content h
    simp only [extract_content_core]
    rw [if_pos h]
  · intro genai fullText h
    simp only [extract_content_with_agent_core]
    rw [if_pos h]

/-- C1 witness: both branches of the amended claim at the empty input. -/
theorem claim_C1_witness :
    extract_content_core (fun t => t) [] = ((false, errInsufficient), 0) ∧
      extract_content_with_agent_core (fun t => t) [] =
        ((false, errInsufficient), 0) :=
  ⟨claim_C1.1 (fun t => t) [] (by decide),
   claim_C1.2 (fun t => t) [] (by decide)⟩

/-! ### `clean_with_genai`

The Gemini call is external; its outcome (a response object, a
`ResourceExhausted` exception, or any other exception) is a parameter.
`streamlit.py` catches only `Exception`; `streamlitV3.py` additionally
catches `ResourceExhausted` first and distinguishes rate-limit
exhaustion. -/

/-- Python's substring test `needle in hay`. -/
def containsSub (needle : List Char) : List Char → Bool
  | [] => needle.isEmpty
  | c :: cs => needle.isPrefixOf (c :: cs) || containsSub needle cs

/-- Python's `str.lower()` (ASCII model). -/
def pyLower (l : List Char) : List Char := l.map Char.toLower

inductive GenaiOutcome where
  | ok (responseText : List Char)
  | resourceExhausted (msg : List Char)
  | exc (msg : List Char)
deriving DecidableEq

def placeholderPhrase : List Char :=
  "provide the actual scraped content".toList

def contentExtractionErr : List Char :=
  "CONTENT EXTRACTION ERROR: Failed to retrieve meaningful page content".toList

def cleaningErrTag : List Char := "CLEANING ERROR: ".toList

def rateLimitCleaningErr : List Char :=
  "CLEANING ERROR: API rate limit - please try again later.".toList

/-- `clean_with_genai` from `streamlit.py`: a `ResourceExhausted`
exception is caught by the generic `except Exception` handler. -/
def clean_with_genai_v1 : GenaiOutcome → List Char
  | .ok r =>
    if containsSub placeholderPhrase (pyLower r) then contentExtractionErr else r
  | .resourceExhausted m => cleaningErrTag ++ m
  | .exc m => cleaningErrTag ++ m

/-- `clean_with_genai` from `streamlitV3.py`, with the dedicated
`ResourceExhausted` handler. -/
def clean_with_genai_v3 : GenaiOutcome → List Char
  | .ok r =>
    if containsSub placeholderPhrase (pyLower r) then contentExtractionErr else r
  | .resourceExhausted m =>
    if containsSub ("429".toList) m ||
        containsSub ("Resource has been exhausted".toList) m then
      rateLimitCleaningErr
    else cleaningErrTag ++ m
  | .exc m => cleaningErrTag ++ m

/-! ### Claim C4 -/

/-- C4, counterexample: a successful response consisting of the
placeholder phrase is not returned verbatim (both variants replace it by
the tagged content-extraction error), and the `streamlit.py` variant
answers rate-limit exhaustion with the generic `CLEANING ERROR:` tag, not
a distinguished rate-limit message. -/
theorem claim_C4_counterexample :
    clean_with_genai_v3 (GenaiOutcome.ok placeholderPhrase) ≠ placeholderPhrase ∧
      clean_with_genai_v1
          (GenaiOutcome.resourceExhausted
            ("429 Resource has been exhausted".toList)) =
        cleaningErrTag ++ "429 Resource has been exhausted".toList := by
  constructor
  · decide
  · decide

/-- C4 (amended): on success the response text is returned verbatim
unless it contains the placeholder phrase (case-insensitively), in which
case the tagged content-extraction error is returned; on any exception a
string tagged `CLEANING ERROR: ` is returned; rate-limit exhaustion
(a `ResourceExhausted` whose message mentions 429 or exhaustion) gets the
distinguished rate-limit message only in the `streamlitV3.py` variant,
while the `streamlit.py` variant tags it generically. -/
theorem claim_C4 :
    (∀ r : List Char, containsSub placeholderPhrase (pyLower r) = false →
       clean_with_genai_v3 (GenaiOutcome.ok r) = r ∧
         clean_with_genai_v1 (GenaiOutcome.ok r) = r) ∧
    (∀ r : List Char, containsSub placeholderPhrase (pyLower r) = true →
       clean_with_genai_v3 (GenaiOutcome.ok r) = contentExtractionErr ∧
         clean_with_genai_v1 (GenaiOutcome.ok r) = contentExtractionErr) ∧
    (∀ m : List Char,
       clean_with_genai_v3 (GenaiOutcome.exc m) = cleaningErrTag ++ m ∧
         clean_with_genai_v1 (GenaiOutcome.exc m) = cleaningErrTag ++ m ∧
         clean_with_genai_v1 (GenaiOutcome.resourceExhausted m) =
           cleaningErrTag ++ m) ∧
    (∀ m : List Char,
       (containsSub ("429".toList) m ||
          containsSub ("Resource has been exhausted".toList) m) = true →
       clean_with_genai_v3 (GenaiOutcome.resourceExhausted m) =
         rateLimitCleaningErr) ∧
    (∀ m : List Char,
       (containsSub ("429".toList) m ||
          containsSub ("Resource has been exhausted".toList) m) = false →
       clean_with_genai_v3 (GenaiOutcome.resourceExhausted m) =
         cleaningErrTag ++ m) := by
  refine ⟨?_, ?_, ?_, ?_, ?_⟩
  · intro r h
    constructor
    · simp [clean_with_genai_v3, h]
    · simp [clean_with_genai_v1, h]
  · intro r h
    constructor
    · simp [clean_with_genai_v3, h]
    · simp [clean_with_genai_v1, h]
  · intro m
    exact ⟨rfl, rfl, rfl⟩
  · intro m h
    show (if (containsSub ("429".toList) m ||
          containsSub ("Resource has been exhausted".toList) m) = true then
        rateLimitCleaningErr
      else cleaningErrTag ++ m) = rateLimitCleaningErr
    rw [if_pos h]
  · intro m h
    show (if (containsSub ("429".toList) m ||
          containsSub ("Resource has been exhausted".toList) m) = true then
        rateLimitCleaningErr
      else cleaningErrTag ++ m) = cleaningErrTag ++ m
    rw [if_neg (by rw [h]; decide)]

/-- C4 witness: the amended claim instantiated at concrete inputs. -/
theorem claim_C4_witness :
    (clean_with_genai_v3 (GenaiOutcome.ok ("All good.".toList)) =
        "All good.".toList) ∧
      (clean_with_genai_v3
          (GenaiOutcome.resourceExhausted ("429 quota".toList)) =
        rateLimitCleaningErr) ∧
      (clean_with_genai_v3
          (GenaiOutcome.resourceExhausted ("boom".toList)) =
        cleaningErrTag ++ "boom".toList) ∧
      (clean_with_genai_v3
          (GenaiOutcome.ok ("Please provide the actual scraped content".toList)) =
        contentExtractionErr) :=
  ⟨(claim_C4.1 ("All good.".toList) (by decide)).1,
   claim_C4.2.2.2.1 ("429 quota".toList) (by decide),
   claim_C4.2.2.2.2 ("boom".toList) (by decide),
   (claim_C4.2.1 ("Please provide the actual scraped content".toList)
     (by decide)).1⟩

/-! ### Fetch outcomes and the full page pipelines -/

/-- Outcome of `requests.get` + parsing in `extract_content`
(`streamlit.py`): the extracted `main_content` text, a
`requests.RequestException`, or any other exception. -/
inductive FetchOutcome where
  | ok (mainContent : List Char)
  | requestError (msg : List Char)
  | otherError (msg : List Char)
deriving DecidableEq

/-- `extract_content` (`streamlit.py`) with its two `except` branches. -/
def extract_content (genai : List Char → List Char) :
    FetchOutcome → (Bool × List Char) × Nat
  | .ok mainContent => extract_content_core genai mainContent
  | .requestError e => ((false, "Error fetching the webpage: ".toList ++ e), 0)
  | .otherError e => ((false, "Error: ".toList ++ e), 0)

/-- Outcome of the browser agent run in `extract_content_with_agent`
(`streamlitV3.py`). -/
inductive AgentOutcome where
  | ok (fullTextResult : List Char)
  | resourceExhausted (msg : List Char)
  | exc (msg : List Char)
deriving DecidableEq

/-- `extract_content_with_agent` (`streamlitV3.py`) with its `except`
branches. -/
def extract_content_with_agent (genai : List Char → List Char) :
    AgentOutcome → (Bool × List Char) × Nat
  | .ok t => extract_content_with_agent_core genai t
  | .resourceExhausted m =>
    if containsSub ("429".toList) m ||
        containsSub ("Resource has been exhausted".toList) m then
      ((false, "Error: API rate limit - please try again later.".toList), 0)
    else ((false, "Error during agent-based extraction: ".toList ++ m), 0)
  | .exc m => ((false, "Error during agent-based extraction: ".toList ++ m), 0)

/-- Python `str.strip('/')`. -/
def strip_slashes (l : List Char) : List Char := stripBy (fun c => c = '/') l

/-- Python `str.replace('/', ' - ')`. -/
def replace_slash_dash (l : List Char) : List Char :=
  l.flatMap (fun c => if c = '/' then " - ".toList else [c])

/-- `process_page` (`streamlitV3.py`).  `path` abstracts
`lambda u: urlparse(u).path`. -/
def process_page (path : List Char → List Char) (genai : List Char → List Char)
    (pageUrl : List Char) (outcome : AgentOutcome) : List Char × List Char :=
  let res := extract_content_with_agent genai outcome
  if res.1.1 then
    let t0 := replace_slash_dash (strip_slashes (path pageUrl))
    let pageTitle0 := if t0.isEmpty then "Page".toList else t0
    let pageTitle :=
      if pageTitle0.isEmpty || pageTitle0 = "Page".toList then pageUrl
      else pageTitle0
    (pageTitle, res.1.2)
  else
    let et := strip_slashes (path pageUrl)
    (if et.isEmpty then "Error Page".toList else et,
     "Error extracting content from ".toList ++ pageUrl ++
       (": ".toList ++ res.1.2))

/-- The `asyncio.gather` batch of `main` (`streamlitV3.py`): one
independent `process_page` invocation per page. -/
def runBatch (path : List Char → List Char) (genai : List Char → List Char)
    (pages : List (List Char × AgentOutcome)) : List (List Char × List Char) :=
  pages.map (fun pu => process_page path genai pu.1 pu.2)

/-! ### Claim C5 -/

/-- C5 (confirmed): a fetch failure makes `extract_content` return a
failure whose message embeds the underlying network error string; in
`streamlitV3.py` an agent exception likewise surfaces inside that page's
error text via `process_page`; and each entry of the batch depends only
on its own page, so replacing one page's outcome leaves every sibling
result unchanged. -/
theorem claim_C5 :
    (∀ (genai : List Char → List Char) (e : List Char),
       (extract_content genai (FetchOutcome.requestError e)).1.1 = false ∧
         ∃ pre, (extract_content genai (FetchOutcome.requestError e)).1.2 =
           pre ++ e) ∧
    (∀ (path genai : List Char → List Char) (u e : List Char),
       ∃ pre, (process_page path genai u (AgentOutcome.exc e)).2 = pre ++ e) ∧
    (∀ (path genai : List Char → List Char)
       (pages : List (List Char × AgentOutcome))
       (k : Nat) (q : List Char × AgentOutcome) (i : Nat), i ≠ k →
       (runBatch path genai (pages.set k q))[i]? =
         (runBatch path genai pages)[i]?) := by
  refine ⟨?_, ?_, ?_⟩
  · intro genai e
    exact ⟨rfl, "Error fetching the webpage: ".toList, rfl⟩
  · intro path genai u e
    refine ⟨"Error extracting content from ".toList ++ u ++ ": ".toList ++
      "Error during agent-based extraction: ".toList, ?_⟩
    simp [process_page, extract_content_with_agent, List.append_assoc]
  · intro path genai pages k q i hik
    unfold runBatch
    rw [List.getElem?_map, List.getElem?_map, List.getElem?_set_ne (Ne.symm hik)]

/-- C5 witness: the three parts at concrete inputs. -/
theorem claim_C5_witness :
    ((extract_content (fun t => t)
        (FetchOutcome.requestError ("timeout".toList))).1.1 = false ∧
      ∃ pre, (extract_content (fun t => t)
        (FetchOutcome.requestError ("timeout".toList))).1.2 =
          pre ++ "timeout".toList) ∧
    (∃ pre, (process_page (fun u => u) (fun t => t) ("u".toList)
        (AgentOutcome.exc ("boom".toList))).2 = pre ++ "boom".toList) ∧
    ((runBatch (fun u => u) (fun t => t)
        ([(("a".toList), AgentOutcome.exc ("x".toList))].set 1
          (("b".toList), AgentOutcome.exc ("y".toList))))[0]? =
      (runBatch (fun u => u) (fun t => t)
        [(("a".toList), AgentOutcome.exc ("x".toList))])[0]?) :=
  ⟨claim_C5.1 (fun t => t) ("timeout".toList),
   claim_C5.2.1 (fun u => u) (fun t => t) ("u".toList) ("boom".toList),
   claim_C5.2.2 (fun u => u) (fun t => t)
     [(("a".toList), AgentOutcome.exc ("x".toList))] 1
     (("b".toList), AgentOutcome.exc ("y".toList)) 0 (by decide)⟩

/-! ### Link discovery (`find_linked_pages`, `streamlitV3.py`)

The parsed page is modelled by the data `find_linked_pages` reads from
the soup: the anchors (`href`, text) inside each `<nav>` element in
document order, and the anchors of the first `<header>` and first
`<footer>` element when present.  `urljoin` and `urlparse(·).netloc` are
Python stdlib calls, taken as abstract function parameters. -/

structure Anchor where
  href : List Char
  text : List Char
deriving DecidableEq

structure Page where
  navs : List (List Anchor)
  headerAnchors : Option (List Anchor)
  footerAnchors : Option (List Anchor)
deriving DecidableEq

structure Link where
  url : List Char
  text : List Char
deriving DecidableEq

/-- The `nav` pass: `soup.find_all('nav')`, collecting every anchor. -/
def nav_pass_links (p : Page) : List Anchor :=
  if p.navs.isEmpty then [] else p.navs.flatten

/-- The collected `nav_links`, with the `if not nav_links:` fallback to
the first `<header>` and first `<footer>`. -/
def collect_nav_links (p : Page) : List Anchor :=
  let navLinks := nav_pass_links p
  if navLinks.isEmpty then
    (p.headerAnchors.getD []) ++ (p.footerAnchors.getD [])
  else navLinks

/-- The `for link_url, link_text in nav_links:` loop: resolve, keep
same-host links, deduplicate by resolved URL, `break` once `max_pages`
entries are collected. -/
def process_links (urljoin : List Char → List Char → List Char)
    (netloc : List Char → List Char) (url : List Char) (maxPages : Nat) :
    List Anchor → List Link → List Link
  | [], acc => acc
  | a :: rest, acc =>
    let absoluteUrl := urljoin url a.href
    if netloc absoluteUrl = netloc url ∧ absoluteUrl ∉ acc.map Link.url then
      let acc' := acc ++ [⟨absoluteUrl, a.text⟩]
      if maxPages ≤ acc'.length then acc'
      else process_links urljoin netloc url maxPages rest acc'
    else process_links urljoin netloc url maxPages rest acc

/-- `find_linked_pages` (`streamlitV3.py`) after a successful fetch. -/
def find_linked_pages (urljoin : List Char → List Char → List Char)
    (netloc : List Char → List Char) (url : List Char) (maxPages : Nat)
    (p : Page) : List Link :=
  process_links urljoin netloc url maxPages (collect_nav_links p) []

/-- Outcome of the `requests.get` at the top of `find_linked_pages`. -/
inductive FetchPageOutcome where
  | ok (p : Page)
  | requestError (msg : List Char)
  | otherError (msg : List Char)
deriving DecidableEq

/-- `find_linked_pages` with its two `except` branches, both of which
`print` to the console and return the empty list. -/
def find_linked_pages_run (urljoin : List Char → List Char → List Char)
    (netloc : List Char → List Char) (url : List Char) (maxPages : Nat) :
    FetchPageOutcome → List Link
  | .ok p => find_linked_pages urljoin netloc url maxPages p
  | .requestError _ => []
  | .otherError _ => []

/-- Which pages `main` (`streamlitV3.py`) processes in explore mode:
`[url] + [page['url'] for page in linked_pages]` when links were found,
only the main `url` otherwise. -/
def pages_to_process (url : List Char) (linked : List Link) : List (List Char) :=
  if linked.isEmpty then [url] else url :: linked.map Link.url

section ProcessLinksLemmas

variable (uj : List Char → List Char → List Char) (nl : List Char → List Char)
variable (url : List Char) (mp : Nat)

theorem process_links_mem : ∀ (anchors : List Anchor) (acc : List Link)
    (x : Link), x ∈ process_links uj nl url mp anchors acc →
    x ∈ acc ∨ nl x.url = nl url := by
  intro anchors
  induction anchors with
  | nil => intro acc x h; exact Or.inl h
  | cons a rest ih =>
    intro acc x h
    simp only [process_links] at h
    by_cases hc : nl (uj url a.href) = nl url ∧
        uj url a.href ∉ acc.map Link.url
    · rw [if_pos hc] at h
      by_cases hbrk : mp ≤ (acc ++ [Link.mk (uj url a.href) a.text]).length
      · rw [if_pos hbrk] at h
        rcases List.mem_append.mp h with h' | h'
        · exact Or.inl h'
        · right
          rw [List.mem_singleton.mp h']
          exact hc.1
      · rw [if_neg hbrk] at h
        rcases ih _ x h with h' | h'
        · rcases List.mem_append.mp h' with h'' | h''
          · exact Or.inl h''
          · right
            rw [List.mem_singleton.mp h'']
            exact hc.1
        · exact Or.inr h'
    · rw [if_neg hc] at h
      exact ih _ x h

theorem process_links_nodup : ∀ (anchors : List Anchor) (acc : List Link),
    (acc.map Link.url).Nodup →
    ((process_links uj nl url mp anchors acc).map Link.url).Nodup := by
  intro anchors
  induction anchors with
  | nil => intro acc h; exact h
  | cons a rest ih =>
    intro acc h
    simp only [process_links]
    by_cases hc : nl (uj url a.href) = nl url ∧
        uj url a.href ∉ acc.map Link.url
    · rw [if_pos hc]
      have hacc : ((acc ++ [Link.mk (uj url a.href) a.text]).map Link.url).Nodup := by
        rw [List.map_append]
        simp only [List.map_cons, List.map_nil]
        rw [List.nodup_append]
        exact ⟨h, List.nodup_singleton _,
          fun y hy hy' => hc.2 (by rwa [List.mem_singleton.mp hy'] at hy)⟩
      by_cases hbrk : mp ≤ (acc ++ [Link.mk (uj url a.href) a.text]).length
      · rw [if_pos hbrk]
        exact hacc
      · rw [if_neg hbrk]
        exact ih _ hacc
    · rw [if_neg hc]
      exact ih _ h

theorem process_links_length : ∀ (anchors : List Anchor) (acc : List Link),
    acc.length < mp →
    (process_links uj nl url mp anchors acc).length ≤ mp := by
  intro anchors
  induction anchors with
  | nil => intro acc h; exact Nat.le_of_lt h
  | cons a rest ih =>
    intro acc h
    simp only [process_links]
    by_cases hc : nl (uj url a.href) = nl url ∧
        uj url a.href ∉ acc.map Link.url
    · rw [if_pos hc]
      by_cases hbrk : mp ≤ (acc ++ [Link.mk (uj url a.href) a.text]).length
      · rw [if_pos hbrk]
        rw [List.length_append, List.length_singleton]
        exact Nat.succ_le_of_lt h
      · rw [if_neg hbrk]
        exact ih _ (Nat.lt_of_not_le hbrk)
    · rw [if_neg hc]
      exact ih _ h

theorem process_links_sublist : ∀ (anchors : List Anchor) (acc : List Link),
    ∃ extra, process_links uj nl url mp anchors acc = acc ++ extra ∧
      extra.Sublist (anchors.map (fun a => Link.mk (uj url a.href) a.text)) := by
  intro anchors
  induction anchors with
  | nil =>
    intro acc
    exact ⟨[], by simp [process_links], List.nil_sublist _⟩
  | cons a rest ih =>
    intro acc
    simp only [process_links]
    by_cases hc : nl (uj url a.href) = nl url ∧
        uj url a.href ∉ acc.map Link.url
    · rw [if_pos hc]
      by_cases hbrk : mp ≤ (acc ++ [Link.mk (uj url a.href) a.text]).length
      · rw [if_pos hbrk]
        exact ⟨[Link.mk (uj url a.href) a.text], rfl,
          List.Sublist.cons₂ _ (List.nil_sublist _)⟩
      · rw [if_neg hbrk]
        obtain ⟨e, he, hsub⟩ := ih (acc ++ [Link.mk (uj url a.href) a.text])
        exact ⟨Link.mk (uj url a.href) a.text :: e,
          by rw [he, List.append_assoc]; rfl,
          List.Sublist.cons₂ _ hsub⟩
    · rw [if_neg hc]
      obtain ⟨e, he, hsub⟩ := ih acc
      exact ⟨e, he, List.Sublist.cons _ hsub⟩

end ProcessLinksLemmas

/-! ### Claim C2 -/

/-- C2 (confirmed, for caps of at least one page as the UI enforces):
every discovered link resolves to the base URL's host, resolved URLs are
pairwise distinct, at most `max_pages` links are returned, and the result
is a sublist (hence in document order) of the collected anchors resolved
against the base URL. -/
theorem claim_C2 (uj : List Char → List Char → List Char)
    (nl : List Char → List Char) (url : List Char) (mp : Nat) (p : Page)
    (hmp : 1 ≤ mp) :
    (∀ x ∈ find_linked_pages uj nl url mp p, nl x.url = nl url) ∧
      ((find_linked_pages uj nl url mp p).map Link.url).Nodup ∧
      (find_linked_pages uj nl url mp p).length ≤ mp ∧
      (find_linked_pages uj nl url mp p).Sublist
        ((collect_nav_links p).map (fun a => Link.mk (uj url a.href) a.text)) := by
  refine ⟨?_, ?_, ?_, ?_⟩
  · intro x hx
    rcases process_links_mem uj nl url mp _ [] x hx with h | h
    · cases h
    · exact h
  · exact process_links_nodup uj nl url mp _ [] (by simp)
  · exact process_links_length uj nl url mp _ [] hmp
  · obtain ⟨e, he, hsub⟩ := process_links_sublist uj nl url mp
      (collect_nav_links p) []
    rw [find_linked_pages, he, List.nil_append]
    exact hsub

/-- C2 witness: the four properties at a concrete page with two anchors
and a cap of one. -/
theorem claim_C2_witness :
    (∀ x ∈ find_linked_pages (fun _ h => h) (fun _ => []) ("u".toList) 1
        (Page.mk [[⟨"a".toList, "A".toList⟩, ⟨"b".toList, "B".toList⟩]]
          none none),
      (fun _ : List Char => ([] : List Char)) x.url =
        (fun _ : List Char => ([] : List Char)) ("u".toList)) ∧
      ((find_linked_pages (fun _ h => h) (fun _ => []) ("u".toList) 1
          (Page.mk [[⟨"a".toList, "A".toList⟩, ⟨"b".toList, "B".toList⟩]]
            none none)).map Link.url).Nodup ∧
      (find_linked_pages (fun _ h => h) (fun _ => []) ("u".toList) 1
          (Page.mk [[⟨"a".toList, "A".toList⟩, ⟨"b".toList, "B".toList⟩]]
            none none)).length ≤ 1 ∧
      (find_linked_pages (fun _ h => h) (fun _ => []) ("u".toList) 1
          (Page.mk [[⟨"a".toList, "A".toList⟩, ⟨"b".toList, "B".toList⟩]]
            none none)).Sublist
        ((collect_nav_links
            (Page.mk [[⟨"a".toList, "A".toList⟩, ⟨"b".toList, "B".toList⟩]]
              none none)).map
          (fun a => Link.mk ((fun _ h => h) ("u".toList) a.href) a.text)) :=
  claim_C2 (fun _ h => h) (fun _ => []) ("u".toList) 1
    (Page.mk [[⟨"a".toList, "A".toList⟩, ⟨"b".toList, "B".toList⟩]] none none)
    (by decide)

/-! ### Claims C7 and C10 -/

/-- A page with one `<nav>` element holding no anchors and a `<header>`
with one anchor. -/
def pageC7 : Page :=
  ⟨[[]], some [⟨"h".toList, "H".toList⟩], none⟩

/-- C7, counterexample: this page contains a `<nav>` element, yet link
discovery uses the `<header>` anchor, because the fallback triggers on
the emptiness of the collected anchor list, not on the absence of
`<nav>` elements. -/
theorem claim_C7_counterexample :
    pageC7.navs ≠ [] ∧
      find_linked_pages (fun _ h => h) (fun _ => []) ("u".toList) 5 pageC7 =
        [⟨"h".toList, "H".toList⟩] := by
  constructor
  · decide
  · decide

/-- C7 (amended): anchors are taken from `<nav>` elements whenever that
pass collects at least one anchor; the `<header>`/`<footer>` fallback is
used exactly when the `<nav>` pass collects none — either because no
`<nav>` element exists or because every `<nav>` element is empty. -/
theorem claim_C7 (p : Page) :
    (p.navs.flatten ≠ [] → collect_nav_links p = p.navs.flatten) ∧
      (p.navs.flatten = [] →
        collect_nav_links p =
          p.headerAnchors.getD [] ++ p.footerAnchors.getD []) := by
  unfold collect_nav_links nav_pass_links
  cases hnavs : p.navs.isEmpty
  · cases hfl : p.navs.flatten.isEmpty
    · constructor
      · intro _
        simp [hnavs, hfl]
      · intro h
        rw [h] at hfl
        cases hfl
    · constructor
      · intro h
        exact absurd (List.isEmpty_iff.mp hfl) h
      · intro _
        simp [hnavs, hfl]
  · have hkill : p.navs = [] := List.isEmpty_iff.mp hnavs
    constructor
    · intro h
      exact absurd (by rw [hkill]; rfl) h
    · intro _
      simp [hnavs, hkill]

/-- C7 witness: the amended claim at two concrete pages, one per branch. -/
theorem claim_C7_witness :
    collect_nav_links (Page.mk [[⟨"a".toList, "A".toList⟩]]
        (some [⟨"h".toList, "H".toList⟩]) none) =
      (Page.mk [[⟨"a".toList, "A".toList⟩]]
        (some [⟨"h".toList, "H".toList⟩]) none).navs.flatten ∧
      collect_nav_links pageC7 =
        pageC7.headerAnchors.getD [] ++ pageC7.footerAnchors.getD [] :=
  ⟨(claim_C7 (Page.mk [[⟨"a".toList, "A".toList⟩]]
      (some [⟨"h".toList, "H".toList⟩]) none)).1 (by decide),
   (claim_C7 pageC7).2 (by decide)⟩

/-- C10 (confirmed): when the fetch inside `find_linked_pages` raises —
a `requests` error or any other exception — the function returns the
empty list instead of propagating, and `main` then processes only the
main page. -/
theorem claim_C10 (uj : List Char → List Char → List Char)
    (nl : List Char → List Char) (url : List Char) (mp : Nat)
    (m : List Char) :
    find_linked_pages_run uj nl url mp (FetchPageOutcome.requestError m) = [] ∧
      find_linked_pages_run uj nl url mp (FetchPageOutcome.otherError m) = [] ∧
      pages_to_process url
        (find_linked_pages_run uj nl url mp (FetchPageOutcome.requestError m)) =
        [url] ∧
      pages_to_process url
        (find_linked_pages_run uj nl url mp (FetchPageOutcome.otherError m)) =
        [url] :=
  ⟨rfl, rfl, rfl, rfl⟩

/-! ### Claim C8: download file names -/

/-- Python `str.split('//')`. -/
def splitOnDSlash : List Char → List (List Char)
  | [] => [[]]
  | [c] => [[c]]
  | c :: d :: cs =>
    if c = '/' && d = '/' then [] :: splitOnDSlash cs
    else
      match splitOnDSlash (d :: cs) with
      | [] => [[c]]
      | a :: r => (c :: a) :: r

/-- `url.split('//')[-1].split('/')[0]` from both `main` functions: the
URL's host. -/
def url_host (url : List Char) : List Char :=
  ((splitOnDSlash url).getLastD []).takeWhile (fun c => c ≠ '/')

/-- The `domain` variable of both `main` functions: the host with `.`
replaced by `_`. -/
def url_domain (url : List Char) : List Char :=
  (url_host url).map (fun c => if c = '.' then '_' else c)

/-- The download file name of `streamlit.py`:
`f"{domain}_{timestamp}.txt"`. -/
def filename_v1 (url timestamp : List Char) : List Char :=
  url_domain url ++ "_".toList ++ timestamp ++ ".txt".toList

/-- The download file name of `streamlitV3.py`:
`f"{domain}_{timestamp}_{selected_page.replace(' ', '_')}.txt"`. -/
def filename_v3 (url timestamp selectedPage : List Char) : List Char :=
  url_domain url ++ "_".toList ++ timestamp ++ "_".toList ++
    selectedPage.map (fun c => if c = ' ' then '_' else c) ++ ".txt".toList

/-- Modelled from the spec: the claimed file-name pattern
`<domain>_<timestamp>[_<page-label>].txt`, with the domain and the page
label inserted verbatim. -/
def spec_filename (domain timestamp : List Char)
    (label : Option (List Char)) : List Char :=
  domain ++ "_".toList ++ timestamp ++
    (match label with
     | none => []
     | some lab => "_".toList ++ lab) ++ ".txt".toList

/-- C8, counterexample: for `https://example.com` the emitted name is
`example_com_<ts>.txt`, not `example.com_<ts>.txt`: the code replaces
each `.` of the domain by `_`, so the name is not the URL's domain
followed by the underscore-separated tail. -/
theorem claim_C8_counterexample :
    filename_v1 ("https://example.com".toList) ("20250101_120000".toList) ≠
      spec_filename (url_host ("https://example.com".toList))
        ("20250101_120000".toList) none := by
  decide

/-- C8 (amended): the emitted file name follows the pattern
`<domain>_<timestamp>[_<page-label>].txt` where the domain part is the
URL's host with every `.` replaced by `_`; the single-page variant never
appends a label, and the multi-page variant always appends the selected
page label with every space replaced by `_`. -/
theorem claim_C8 (url timestamp label : List Char) :
    filename_v1 url timestamp =
      spec_filename (url_domain url) timestamp none ∧
      filename_v3 url timestamp label =
        spec_filename (url_domain url) timestamp
          (some (label.map (fun c => if c = ' ' then '_' else c))) := by
  constructor
  · simp [filename_v1, spec_filename, List.append_assoc]
  · simp [filename_v3, spec_filename, List.append_assoc]

end Txtify
